import Mathlib

/-!
Verification of the npmx-digest pipeline against its specification.

The repository is a TypeScript content-generation pipeline.  This file gives a
shallow embedding of its data model and of the functions the claims are about:

* `src/src/lib/schema.ts` — zod schemas (`TopicSchema`, `PostSchema`) and a
  self-contained pipeline variant (`fetchGitHubEvents`, `fetchBlueskyEvents`,
  `generateSmartDigest`, `generateCatchyTitle`); embedded here with suffix `S`.
* `src/src/lib/events.ts` — a second pipeline variant whose Bluesky boost is
  decided by a substring heuristic; embedded here with suffix `E`.
* `src/scripts/generate-digest.ts` — the time-window selector and
  `pickWeightedTopic`.
* `src/scripts/backfill.ts` — the paginated Bluesky fetcher
  (`fetchBlueskyEvents(start, end)`), embedded as `fetchBlueskyBackfill`.

Modelling conventions:
* JS numbers carried by the data (relevance scores, the random draw) are
  modelled as `ℚ`; instants (`Date` values, `getTime()` milliseconds) are
  modelled as `ℤ` milliseconds since the epoch.  ISO-8601 timestamp strings
  are represented by the instant they denote, since the code only parses,
  compares and re-serialises them.
* Network responses are explicit inputs: a fetcher takes the decoded response
  data (`Option` = `none` for a failed / non-OK request, which the source
  catches) and is a pure function of it.
* `process.env` is an explicit map `String → Option String`.
* The WHATWG URL validity test used by `z.string().url()` and the date
  coercion of `z.coerce.date()` are abstracted as boolean parameters
  `urlValid` / `dateValid`; the claims quantify over them.
* `Array.prototype.sort` with comparator `(a, b) => b.relevanceScore -
  a.relevanceScore` is, by the ECMAScript 2019 specification, the unique
  stable non-increasing reordering by score; it is embedded as the stable
  insertion sort `sortTopicsDesc`.  The ascending / descending numeric sorts
  used by the window selector are `sortAscI` / `sortDescI`.
-/

namespace NpmxDigest

/-! ## Data model (schema.ts) -/

/-- `EventSchema.source : z.enum(["github", "bluesky"])`. -/
inductive EventSource where
  | github
  | bluesky
deriving DecidableEq, Repr

/-- `SourceSchema = z.object({ platform: z.string(), url: z.string().url() })`. -/
structure Source where
  platform : String
  url : String
deriving DecidableEq, Repr

/-- `TopicSchema = z.object({ title, summary, relevanceScore, sources })`.
The field constraints (`relevanceScore` in `[0, 10]`, URLs well-formed) are
checked by `validateTopic`, mirroring `TopicSchema.parse`. -/
structure Topic where
  title : String
  summary : String
  relevanceScore : ℚ
  sources : List Source
deriving DecidableEq, Repr

/-- `EventSchema` from events.ts / schema.ts.  `timestamp` is the instant the
ISO string denotes, in milliseconds. -/
structure Event where
  source : EventSource
  title : String
  description : String
  url : Option String
  timestamp : ℤ
deriving DecidableEq, Repr

/-- The raw data assembled into `postData` in generate-digest.ts before
`PostSchema.parse`.  `date` is the raw string handed to `z.coerce.date()` and
`type` the raw string handed to `z.enum(["daily", "nightly"])`. -/
structure RawPost where
  title : String
  date : String
  type : String
  topics : List Topic
deriving DecidableEq, Repr

/-! ## Environment access (`getRequiredEnv`, schema.ts lines 49–55) -/

/-- `getRequiredEnv` throws when the variable is absent or empty (`!value`). -/
def getRequiredEnv (env : String → Option String) (key : String) :
    Except String String :=
  match env key with
  | some v =>
      if v = "" then .error ("Environment variable " ++ key ++ " is missing.")
      else .ok v
  | none => .error ("Environment variable " ++ key ++ " is missing.")

/-! ## `sanitizeBrand` (`text.replace(/npmx/gi, "npmx")`) -/

/-- Does the character list start with a case-insensitive match of "npmx"? -/
def matchesNpmx : List Char → Bool
  | a :: b :: c :: d :: _ =>
      a.toLower == 'n' && b.toLower == 'p' && c.toLower == 'm' && d.toLower == 'x'
  | _ => false

/-- Left-to-right global replacement of case-insensitive "npmx" by "npmx",
as the regex `/npmx/gi` performs.  `fuel` bounds the recursion by the input
length so the definition is structural. -/
def sanitizeChars : Nat → List Char → List Char
  | 0, cs => cs
  | _ + 1, [] => []
  | fuel + 1, c :: cs =>
      if matchesNpmx (c :: cs) then
        'n' :: 'p' :: 'm' :: 'x' :: sanitizeChars fuel (cs.drop 3)
      else c :: sanitizeChars fuel cs

/-- `sanitizeBrand` from schema.ts / events.ts. -/
def sanitizeBrand (s : String) : String :=
  ⟨sanitizeChars s.data.length s.data⟩

/-! ## String helpers used by the events.ts heuristic -/

/-- Is `needle` a leading chunk of `hay`?  (Empty `needle` always matches.) -/
def beginsWith : List Char → List Char → Bool
  | [], _ => true
  | _ :: _, [] => false
  | a :: as, b :: bs => a == b && beginsWith as bs

/-- JS `hay.includes(needle)` on character lists. -/
def containsSub (needle : List Char) : List Char → Bool
  | [] => beginsWith needle []
  | c :: rest => beginsWith needle (c :: rest) || containsSub needle rest

/-- JS `s.includes(sub)`. -/
def strIncludes (s sub : String) : Bool :=
  containsSub sub.data s.data

/-- JS `s.substring(0, n)` (code-unit truncation, here by characters). -/
def strTake (s : String) (n : Nat) : String :=
  ⟨s.data.take n⟩

/-- JS `uri.split("/").pop()`. -/
def lastSegment (uri : String) : String :=
  (uri.splitOn "/").getLast?.getD ""

/-! ## Schema validation (zod `parse`) -/

/-- `TopicSchema.parse` succeeds iff the score is within `[0, 10]` and every
source URL passes the URL check (`urlValid` abstracts `z.string().url()`). -/
def validateTopic (urlValid : String → Bool) (t : Topic) : Bool :=
  decide (0 ≤ t.relevanceScore) && decide (t.relevanceScore ≤ 10) &&
    t.sources.all (fun s => urlValid s.url)

/-- `TopicSchema.parse` as partial identity: zod returns the object unchanged
on success and throws on failure. -/
def topicParse (urlValid : String → Bool) (t : Topic) : Option Topic :=
  if validateTopic urlValid t then some t else none

/-- `parsed.topics.map(t => TopicSchema.parse(t))` throws on the first invalid
topic, invalidating the whole response. -/
def parseTopics (urlValid : String → Bool) : List Topic → Option (List Topic)
  | [] => some []
  | t :: ts =>
      match topicParse urlValid t, parseTopics urlValid ts with
      | some v, some vs => some (v :: vs)
      | _, _ => none

/-- `PostSchema.parse` on the assembled post data: `title` is any string,
`date` must coerce (`dateValid` abstracts `z.coerce.date()`), `type` must be
`"daily"` or `"nightly"` (`z.enum(["daily", "nightly"])`, schema.ts line 18),
and every topic must satisfy `TopicSchema`. -/
def validatePost (urlValid dateValid : String → Bool) (p : RawPost) : Bool :=
  dateValid p.date && (p.type == "daily" || p.type == "nightly") &&
    p.topics.all (validateTopic urlValid)

/-! ## Stable sorts

`topics.sort((a, b) => b.relevanceScore - a.relevanceScore)` is by ES2019 the
stable non-increasing reordering by score; `candidates.sort((a, b) => a - b)`
and `(a, b) => b - a` are the number sorts of generate-digest.ts. -/

/-- Stable descending insert: an element is placed before the first strictly
smaller one, so an earlier list element precedes later equal-score ones. -/
def insertTopicDesc (t : Topic) : List Topic → List Topic
  | [] => [t]
  | x :: xs =>
      if x.relevanceScore ≤ t.relevanceScore then t :: x :: xs
      else x :: insertTopicDesc t xs

/-- Stable sort, non-increasing by `relevanceScore`. -/
def sortTopicsDesc : List Topic → List Topic
  | [] => []
  | t :: ts => insertTopicDesc t (sortTopicsDesc ts)

/-- Ascending insert for `sort((a, b) => a - b)`. -/
def insertAscI (x : ℤ) : List ℤ → List ℤ
  | [] => [x]
  | y :: ys => if x ≤ y then x :: y :: ys else y :: insertAscI x ys

/-- Ascending numeric sort. -/
def sortAscI : List ℤ → List ℤ
  | [] => []
  | x :: xs => insertAscI x (sortAscI xs)

/-- Descending insert for `sort((a, b) => b - a)`. -/
def insertDescI (x : ℤ) : List ℤ → List ℤ
  | [] => [x]
  | y :: ys => if y ≤ x then x :: y :: ys else y :: insertDescI x ys

/-- Descending numeric sort. -/
def sortDescI : List ℤ → List ℤ
  | [] => []
  | x :: xs => insertDescI x (sortDescI xs)

/-! ## Topic clustering (`generateSmartDigest`) -/

/-- `validated.sources.some(s => s.platform === "bluesky")`
(schema.ts lines 213–215). -/
def hasBlueskySource (t : Topic) : Bool :=
  t.sources.any (fun s => s.platform == "bluesky")

/-- The per-topic transform of schema.ts `generateSmartDigest` (lines 217–224):
brand sanitation plus the deterministic Bluesky boost, clamped at 10. -/
def boostS (t : Topic) : Topic :=
  { t with
    title := sanitizeBrand t.title
    summary := sanitizeBrand t.summary
    relevanceScore :=
      if hasBlueskySource t then min 10 (t.relevanceScore + 1)
      else t.relevanceScore }

/-- The events.ts heuristic (lines 202–206): the topic "contains" a Bluesky
event if its raw summary includes the first 20 characters of the title of some
Bluesky event. -/
def hasBlueskyHeuristic (events : List Event) (t : Topic) : Bool :=
  events.any (fun e =>
    e.source == EventSource.bluesky && strIncludes t.summary (strTake e.title 20))

/-- The per-topic transform of events.ts `generateSmartDigest` (lines 208–216):
the boost is keyed on the substring heuristic, not on the sources list. -/
def boostE (events : List Event) (t : Topic) : Topic :=
  { t with
    title := sanitizeBrand t.title
    summary := sanitizeBrand t.summary
    relevanceScore :=
      if hasBlueskyHeuristic events t then min 10 (t.relevanceScore + 1)
      else t.relevanceScore }

/-- `generateSmartDigest` from schema.ts (lines 170–235).  `resp` is the
parsed `topics` array of the model response; `none` models every failure the
`try` catches before the `map` (request error — including the missing
`MODELS_TOKEN` thrown inside `requestInference` —, JSON parse failure, missing
`topics` array).  A topic failing `TopicSchema.parse` aborts the `map`; the
`catch` turns every such error into `[]`.  The empty-events no-op comes first
(line 171). -/
def generateSmartDigestS (urlValid : String → Bool) (env : String → Option String)
    (events : List Event) (resp : Option (List Topic)) : List Topic :=
  if events.isEmpty then []
  else
    match getRequiredEnv env "MODELS_TOKEN" with
    | .error _ => []
    | .ok _ =>
        match resp with
        | none => []
        | some raws =>
            match parseTopics urlValid raws with
            | none => []
            | some validated => sortTopicsDesc (validated.map boostS)

/-- `generateSmartDigest` from events.ts (lines 155–233).  Here
`getRequiredEnv("GITHUB_TOKEN")` runs before the `try`, so a missing
credential propagates as an error; all later failures yield `.ok []`. -/
def generateSmartDigestE (urlValid : String → Bool) (env : String → Option String)
    (events : List Event) (resp : Option (List Topic)) :
    Except String (List Topic) :=
  match getRequiredEnv env "GITHUB_TOKEN" with
  | .error e => .error e
  | .ok _ =>
      if events.isEmpty then .ok []
      else
        .ok (match resp with
          | none => []
          | some raws =>
              match parseTopics urlValid raws with
              | none => []
              | some validated => sortTopicsDesc (validated.map (boostE events)))

/-- `generateCatchyTitle` from schema.ts (lines 237–254).  `resp` is the model
reply text; the missing `MODELS_TOKEN` error thrown inside `requestInference`
is caught and falls back to the topic's own (sanitised) title. -/
def generateCatchyTitleS (env : String → Option String) (topic : Topic)
    (resp : Option String) : String :=
  match getRequiredEnv env "MODELS_TOKEN" with
  | .error _ => sanitizeBrand topic.title
  | .ok _ =>
      match resp with
      | none => sanitizeBrand topic.title
      | some content => sanitizeBrand content.trim

/-- `generateCatchyTitle` from events.ts (lines 235–269):
`getRequiredEnv("GITHUB_TOKEN")` runs before the `try` and throws. -/
def generateCatchyTitleE (env : String → Option String) (topic : Topic)
    (resp : Option String) : Except String String :=
  match getRequiredEnv env "GITHUB_TOKEN" with
  | .error e => .error e
  | .ok _ =>
      .ok (match resp with
        | none => sanitizeBrand topic.title
        | some content => sanitizeBrand content.trim)

/-! ## GitHub fetcher (schema.ts lines 81–126) -/

/-- One element of `data.items` from the GitHub search response. -/
structure GhItem where
  number : Nat
  pullRequest : Bool
  title : String
  body : Option String
  htmlUrl : String
  closedAt : Option ℤ
  createdAt : ℤ
deriving DecidableEq, Repr

/-- `fetchGitHubEvents` from schema.ts.  The token is read before the `try`
block, so a missing `GITHUB_TOKEN` escapes regardless of the network.  `resp`
is the decoded `data.items` (`none` = non-OK response or caught network
failure, both yielding no events).  Each item is mapped verbatim: timestamp
`item.closed_at || item.created_at`, description `item.body || "No description
provided"`.  No client-side timestamp filtering is applied — the window is
only part of the server-side query string. -/
def fetchGitHubEventsS (env : String → Option String) (_since _nowEnd : ℤ)
    (resp : Option (List GhItem)) : Except String (List Event) :=
  match getRequiredEnv env "GITHUB_TOKEN" with
  | .error e => .error e
  | .ok _ =>
      .ok (match resp with
        | none => []
        | some items =>
            items.map (fun item =>
              { source := .github
                title :=
                  (if item.pullRequest then "Merged PR" else "Closed Issue") ++
                    " #" ++ toString item.number ++ ": " ++ item.title
                description :=
                  match item.body with
                  | some b => if b = "" then "No description provided" else b
                  | none => "No description provided"
                url := some item.htmlUrl
                timestamp := item.closedAt.getD item.createdAt }))

/-! ## Bluesky fetchers -/

/-- One element of the author feed: `item.reason?.indexedAt` (present exactly
for reposts), `item.post.indexedAt`, author handle, record text and post URI,
with instants in milliseconds. -/
structure BskyItem where
  reasonIndexedAt : Option ℤ
  postIndexedAt : ℤ
  authorHandle : String
  text : String
  uri : String
deriving DecidableEq, Repr

/-- `item.reason?.indexedAt || item.post.indexedAt`. -/
def bskyTimestamp (item : BskyItem) : ℤ :=
  item.reasonIndexedAt.getD item.postIndexedAt

/-- The `Event` pushed for a feed item (identical shape in schema.ts lines
150–156 and backfill.ts lines 150–156). -/
def bskyEventOf (item : BskyItem) (ts : ℤ) : Event :=
  { source := .bluesky
    title :=
      (if item.reasonIndexedAt.isSome then
          "[Repost from @" ++ item.authorHandle ++ "] "
        else "") ++ strTake item.text 80
    description := item.text
    url := some ("https://bsky.app/profile/" ++ item.authorHandle ++ "/post/" ++
      lastSegment item.uri)
    timestamp := ts }

/-- `fetchBlueskyEvents` from schema.ts (lines 128–168): a single feed page,
keeping items with `new Date(timestamp) >= since`.  Only the lower bound is
checked; there is no upper bound.  `resp = none` models a failed handle
resolution or feed request. -/
def fetchBlueskyEventsS (since : ℤ) (resp : Option (List BskyItem)) :
    List Event :=
  match resp with
  | none => []
  | some feed =>
      feed.foldl (fun acc item =>
        if since ≤ bskyTimestamp item then
          acc ++ [bskyEventOf item (bskyTimestamp item)]
        else acc) []

/-- The loop body of backfill.ts `fetchBlueskyEvents` (lines 135–158) over one
feed item: an item before `start` sets `reachedBeforeStart` and is skipped
(`continue`); an item within `[start, end]` is pushed; a later item is
skipped. -/
def processFeedItem (start endT : ℤ) (st : List Event × Bool) (item : BskyItem) :
    List Event × Bool :=
  if bskyTimestamp item < start then (st.1, true)
  else if bskyTimestamp item ≤ endT then
    (st.1 ++ [bskyEventOf item (bskyTimestamp item)], st.2)
  else st

/-- One page of the backfill loop: the `for` over `feed`. -/
def processFeed (start endT : ℤ) (feed : List BskyItem) : List Event × Bool :=
  feed.foldl (processFeedItem start endT) ([], false)

/-- backfill.ts `fetchBlueskyEvents(start, end)` (lines 101–165).  `pages` is
the sequence of successfully fetched feed pages in cursor order; the loop
stops on an empty page, when `reachedBeforeStart` was set by the previous
page, or when the cursor runs out (`rest = []`). -/
def fetchBlueskyBackfill (start endT : ℤ) : List (List BskyItem) → List Event
  | [] => []
  | feed :: rest =>
      if feed.isEmpty then []
      else if (processFeed start endT feed).2 then (processFeed start endT feed).1
      else if rest.isEmpty then (processFeed start endT feed).1
      else (processFeed start endT feed).1 ++ fetchBlueskyBackfill start endT rest

/-! ## Weighted topic selection (generate-digest.ts lines 14–24) -/

/-- `topics.reduce((sum, t) => sum + t.relevanceScore, 0)`. -/
def totalWeight (topics : List Topic) : ℚ :=
  topics.foldl (fun sum t => sum + t.relevanceScore) 0

/-- The `for` loop of `pickWeightedTopic`: return the first topic whose score
exceeds the remaining `random`, else fall through. -/
def pickLoop (r : ℚ) : List Topic → Option Topic
  | [] => none
  | t :: ts =>
      if r < t.relevanceScore then some t else pickLoop (r - t.relevanceScore) ts

/-- `pickWeightedTopic`, with the draw `random = Math.random() * totalWeight`
passed in as `r`.  The fallthrough returns `topics[0]`. -/
def pickWeightedTopic (r : ℚ) (topics : List Topic) : Option Topic :=
  match pickLoop r topics with
  | some t => some t
  | none => topics.head?

/-! ## Time-window selector (generate-digest.ts lines 62–92) -/

def msPerHour : ℤ := 60 * 60 * 1000

def msPerDay : ℤ := 24 * msPerHour

/-- `const marks = [6, 14, 22]`. -/
def digestMarks : List ℤ := [6, 14, 22]

/-- `windowSize = 8 * 60 * 60 * 1000`. -/
def digestWindowSize : ℤ := 8 * msPerHour

/-- `snapWindow = 2 * 60 * 60 * 1000`. -/
def digestSnapWindow : ℤ := 2 * msPerHour

/-- Midnight UTC of the current day: the effect of `setUTCHours(h, 0, 0, 0)`
before the hour is added.  `Int.fdiv` is the floor division a `Date` performs
on its epoch milliseconds. -/
def dayMarkStart (now : ℤ) : ℤ :=
  msPerDay * (now.fdiv msPerDay)

/-- The nine candidate marks: day offsets `[-1, 0, 1]`, hours `[6, 14, 22]`,
each candidate being `now` shifted to that day at that exact hour. -/
def selectorCandidates (now : ℤ) : List ℤ :=
  ([-1, 0, 1] : List ℤ).flatMap (fun off =>
    digestMarks.map (fun h => dayMarkStart now + off * msPerDay + h * msPerHour))

/-- `candidates.filter(d => d.getTime() >= now.getTime()).sort((a,b) => a-b)[0]`. -/
def futureMark (now : ℤ) : Option ℤ :=
  (sortAscI ((selectorCandidates now).filter (fun d => decide (now ≤ d)))).head?

/-- `candidates.filter(d => d.getTime() < now.getTime()).sort((a,b) => b-a)[0]`. -/
def pastMark (now : ℤ) : Option ℤ :=
  (sortDescI ((selectorCandidates now).filter (fun d => decide (d < now)))).head?

/-- `nearestMark = diffToFuture <= snapWindow ? futureMark : pastMark`;
`none` is the `throw` when either mark is missing. -/
def nearestMark (now : ℤ) : Option ℤ :=
  match futureMark now, pastMark now with
  | some f, some p => some (if f - now ≤ digestSnapWindow then f else p)
  | _, _ => none

/-- `startTime = new Date(nearestMark.getTime() - windowSize)`. -/
def digestStartTime (now : ℤ) : Option ℤ :=
  (nearestMark now).map (fun m => m - digestWindowSize)

/-! ## Post type (generate-digest.ts lines 26–36) -/

/-- `getPostType`, as a function of `date.getUTCHours()`: the hour is shifted
by one (`+ 1` "basic UTC+1 adjustment"), then bucketed into
`"daily" | "midday" | "nightly"`. -/
def getPostType (utcHours : ℤ) : String :=
  if 5 ≤ utcHours + 1 ∧ utcHours + 1 < 13 then "daily"
  else if 13 ≤ utcHours + 1 ∧ utcHours + 1 < 21 then "midday"
  else "nightly"

/-! ## Concrete fixtures used by witnesses and counterexamples -/

/-- A URL validator accepting everything (one admissible instantiation of the
abstracted `z.string().url()` check). -/
def urlTrue : String → Bool := fun _ => true

/-- A date validator accepting everything. -/
def dateTrue : String → Bool := fun _ => true

/-- An environment defining every variable. -/
def envTok : String → Option String := fun _ => some "token"

/-- An environment defining no variable. -/
def envMissing : String → Option String := fun _ => none

def evGithubW : Event :=
  ⟨.github, "Merged PR #1: init", "d", some "https://github.com/x", 50⟩

def evBlueskyW : Event :=
  ⟨.bluesky, "community post about releases!", "text", some "https://bsky.app/x", 60⟩

/-- Score 5, no Bluesky source. -/
def topicA : Topic := ⟨"Alpha", "summary alpha", 5, [⟨"github", "https://github.com/a"⟩]⟩

/-- Score 7, no Bluesky source. -/
def topicB : Topic := ⟨"Beta", "summary beta", 7, [⟨"github", "https://github.com/b"⟩]⟩

/-- Score 7 as well, listed after `topicB`. -/
def topicC : Topic := ⟨"Gamma", "summary gamma", 7, [⟨"github", "https://github.com/c"⟩]⟩

/-- Score 0, no sources. -/
def topicZ : Topic := ⟨"Zero", "summary zero", 0, []⟩

/-- A Bluesky source entry but a summary that shares no 20-character chunk
with `evBlueskyW.title`. -/
def topicBsky : Topic :=
  ⟨"Delta", "unrelated words only", 5, [⟨"bluesky", "https://bsky.app/b"⟩]⟩

/-- A GitHub search item with no `closed_at` and an early `created_at`. -/
def ghEarly : GhItem := ⟨7, false, "t", none, "https://github.com/i/7", none, 0⟩

/-- A feed item inside the window `[100, 200]`. -/
def bskyItemIn : BskyItem := ⟨none, 150, "npmx.dev", "hello world", "at://a/b/c"⟩

/-- A feed item before the window start 100. -/
def bskyItemEarly : BskyItem := ⟨none, 50, "npmx.dev", "old post", "at://a/b/d"⟩

/-- A post assembled with the pipeline's own `getPostType` at the 14:00 UTC
mark, whose type `"midday"` the `PostSchema` enum rejects. -/
def middayPost : RawPost := ⟨"Title", "2026-02-03T14:00:00.000Z", getPostType 14, []⟩

/-! ## Lemmas about the stable topic sort -/

theorem mem_insertTopicDesc {t y : Topic} {l : List Topic} :
    y ∈ insertTopicDesc t l ↔ y = t ∨ y ∈ l := by
  induction l with
  | nil => simp [insertTopicDesc]
  | cons x xs ih =>
      by_cases h : x.relevanceScore ≤ t.relevanceScore
      · simp only [insertTopicDesc, if_pos h, List.mem_cons]
      · simp only [insertTopicDesc, if_neg h, List.mem_cons, ih]
        tauto

theorem mem_sortTopicsDesc {y : Topic} {l : List Topic} :
    y ∈ sortTopicsDesc l ↔ y ∈ l := by
  induction l with
  | nil => simp [sortTopicsDesc]
  | cons x xs ih => simp [sortTopicsDesc, mem_insertTopicDesc, ih]

theorem insertTopicDesc_pairwise {t : Topic} {l : List Topic}
    (hl : l.Pairwise (fun a b => b.relevanceScore ≤ a.relevanceScore)) :
    (insertTopicDesc t l).Pairwise
      (fun a b => b.relevanceScore ≤ a.relevanceScore) := by
  induction l with
  | nil => simp [insertTopicDesc]
  | cons x xs ih =>
      rcases List.pairwise_cons.mp hl with ⟨hx, hxs⟩
      by_cases h : x.relevanceScore ≤ t.relevanceScore
      · rw [insertTopicDesc, if_pos h]
        refine List.Pairwise.cons ?_ hl
        intro y hy
        rcases List.mem_cons.mp hy with rfl | hy
        · exact h
        · exact le_trans (hx y hy) h
      · rw [insertTopicDesc, if_neg h]
        refine List.Pairwise.cons ?_ (ih hxs)
        intro y hy
        rcases mem_insertTopicDesc.mp hy with rfl | hy
        · exact le_of_lt (lt_of_not_le h)
        · exact hx y hy

theorem sortTopicsDesc_pairwise (l : List Topic) :
    (sortTopicsDesc l).Pairwise
      (fun a b => b.relevanceScore ≤ a.relevanceScore) := by
  induction l with
  | nil => simp [sortTopicsDesc]
  | cons x xs ih => exact insertTopicDesc_pairwise ih

theorem filter_insertTopicDesc (c : ℚ) (t : Topic) (l : List Topic) :
    (insertTopicDesc t l).filter (fun y => decide (y.relevanceScore = c)) =
      if t.relevanceScore = c then
        t :: l.filter (fun y => decide (y.relevanceScore = c))
      else l.filter (fun y => decide (y.relevanceScore = c)) := by
  induction l with
  | nil => by_cases h : t.relevanceScore = c <;> simp [insertTopicDesc, h]
  | cons x xs ih =>
      by_cases h : x.relevanceScore ≤ t.relevanceScore
      · rw [insertTopicDesc, if_pos h]
        by_cases htc : t.relevanceScore = c <;>
          simp [List.filter_cons, htc]
      · rw [insertTopicDesc, if_neg h]
        by_cases htc : t.relevanceScore = c
        · have hxc : ¬ x.relevanceScore = c := by
            intro hx
            exact h (le_of_eq (hx.trans htc.symm))
          simp [List.filter_cons, hxc, htc, ih]
        · by_cases hxc : x.relevanceScore = c <;>
            simp [List.filter_cons, hxc, htc, ih]

theorem filter_sortTopicsDesc (c : ℚ) (l : List Topic) :
    (sortTopicsDesc l).filter (fun y => decide (y.relevanceScore = c)) =
      l.filter (fun y => decide (y.relevanceScore = c)) := by
  induction l with
  | nil => rfl
  | cons x xs ih =>
      rw [sortTopicsDesc, filter_insertTopicDesc]
      by_cases h : x.relevanceScore = c <;> simp [List.filter_cons, h, ih]

/-! ## Lemmas about `TopicSchema` parsing and the boosts -/

theorem validateTopic_bounds {urlValid : String → Bool} {t : Topic}
    (h : validateTopic urlValid t = true) :
    0 ≤ t.relevanceScore ∧ t.relevanceScore ≤ 10 := by
  unfold validateTopic at h
  simp only [Bool.and_eq_true, decide_eq_true_eq] at h
  exact ⟨h.1.1, h.1.2⟩

theorem parseTopics_eq {urlValid : String → Bool} :
    ∀ {l vs : List Topic}, parseTopics urlValid l = some vs →
      vs = l ∧ ∀ t ∈ l, validateTopic urlValid t = true := by
  intro l
  induction l with
  | nil => intro vs h; cases h; simp
  | cons x xs ih =>
      intro vs h
      unfold parseTopics topicParse at h
      by_cases hx : validateTopic urlValid x = true
      · rw [if_pos hx] at h
        cases hxs : parseTopics urlValid xs with
        | none => rw [hxs] at h; exact absurd h (by simp)
        | some ws =>
            rw [hxs] at h
            cases h
            rcases ih hxs with ⟨rfl, hall⟩
            refine ⟨rfl, ?_⟩
            intro t ht
            rcases List.mem_cons.mp ht with rfl | ht
            · exact hx
            · exact hall t ht
      · rw [if_neg hx] at h
        exact absurd h (by simp)

theorem parseTopics_of_all {urlValid : String → Bool} {l : List Topic}
    (h : l.all (validateTopic urlValid) = true) :
    parseTopics urlValid l = some l := by
  induction l with
  | nil => rfl
  | cons x xs ih =>
      rw [List.all_cons, Bool.and_eq_true] at h
      unfold parseTopics topicParse
      rw [if_pos h.1, ih h.2]

theorem boostS_sources (t : Topic) : (boostS t).sources = t.sources := rfl

theorem boostS_score (t : Topic) :
    (boostS t).relevanceScore =
      if hasBlueskySource t = true then min 10 (t.relevanceScore + 1)
      else t.relevanceScore := by
  unfold boostS
  by_cases h : hasBlueskySource t <;> simp [h]

theorem boost_clamp_bounds {s : ℚ} (h0 : 0 ≤ s) (h10 : s ≤ 10) (b : Bool) :
    0 ≤ (if b = true then min 10 (s + 1) else s) ∧
      (if b = true then min 10 (s + 1) else s) ≤ 10 := by
  cases b with
  | false => simpa using ⟨h0, h10⟩
  | true =>
      simp only [if_pos rfl]
      constructor
      · exact le_min (by norm_num) (by linarith)
      · exact min_le_left _ _

/-- On the success path (`events` non-empty, credential present, every topic
valid) the schema.ts digest is exactly the boosted list, stably sorted. -/
theorem generateSmartDigestS_eq {urlValid : String → Bool}
    {env : String → Option String} {events : List Event} {raws : List Topic}
    {tok : String} (h1 : events.isEmpty = false)
    (h2 : getRequiredEnv env "MODELS_TOKEN" = Except.ok tok)
    (h3 : raws.all (validateTopic urlValid) = true) :
    generateSmartDigestS urlValid env events (some raws) =
      sortTopicsDesc (raws.map boostS) := by
  unfold generateSmartDigestS
  rw [h1, h2]
  simp [parseTopics_of_all h3]

/-- Every topic in the schema.ts digest output is the boost of a validated
topic of the response. -/
theorem generateSmartDigestS_mem {urlValid : String → Bool}
    {env : String → Option String} {events : List Event}
    {resp : Option (List Topic)} {t : Topic}
    (ht : t ∈ generateSmartDigestS urlValid env events resp) :
    ∃ raws r, resp = some raws ∧ r ∈ raws ∧ t = boostS r ∧
      validateTopic urlValid r = true := by
  unfold generateSmartDigestS at ht
  split at ht
  · exact absurd ht (by simp)
  · split at ht
    · exact absurd ht (by simp)
    · split at ht
      · exact absurd ht (by simp)
      · rename_i raws
        split at ht
        · exact absurd ht (by simp)
        · rename_i validated hp
          rw [mem_sortTopicsDesc] at ht
          rcases List.mem_map.mp ht with ⟨r, hr, rfl⟩
          rcases parseTopics_eq hp with ⟨rfl, hall⟩
          exact ⟨validated, r, rfl, hr, rfl, hall r hr⟩

/-! ## Claim C1 -/

/-- C1: every topic returned by the clustering step `generateSmartDigest`
(schema.ts), after validation and the Bluesky boost, has `relevanceScore` in
`[0, 10]`: validation guarantees the pre-boost score is within bounds, and the
boost adds at most 1 and is clamped at the maximum 10. -/
theorem claim_C1_boosted_scores_within_bounds
    (urlValid : String → Bool) (env : String → Option String)
    (events : List Event) (resp : Option (List Topic)) (t : Topic)
    (ht : t ∈ generateSmartDigestS urlValid env events resp) :
    0 ≤ t.relevanceScore ∧ t.relevanceScore ≤ 10 := by
  rcases generateSmartDigestS_mem ht with ⟨raws, r, _, _, rfl, hv⟩
  rcases validateTopic_bounds hv with ⟨h0, h10⟩
  rw [boostS_score]
  exact boost_clamp_bounds h0 h10 _

/-- Witness for C1 at a concrete digest run. -/
theorem claim_C1_witness :
    topicA ∈ generateSmartDigestS urlTrue envTok [evGithubW] (some [topicA]) ∧
      0 ≤ topicA.relevanceScore ∧ topicA.relevanceScore ≤ 10 :=
  ⟨by decide,
    claim_C1_boosted_scores_within_bounds urlTrue envTok [evGithubW]
      (some [topicA]) topicA (by decide)⟩

/-! ## Claim C2 -/

/-- C2: on a successful clustering run (non-empty events, credential present,
all response topics valid), the list returned by schema.ts
`generateSmartDigest` is sorted non-increasing by boosted `relevanceScore`,
and within each score class the relative order is the order of the model's
response (the ES2019 sort is stable). -/
theorem claim_C2_digest_sorted_stable
    (urlValid : String → Bool) (env : String → Option String)
    (events : List Event) (raws : List Topic) (tok : String) (c : ℚ)
    (h1 : events.isEmpty = false)
    (h2 : getRequiredEnv env "MODELS_TOKEN" = Except.ok tok)
    (h3 : raws.all (validateTopic urlValid) = true) :
    (generateSmartDigestS urlValid env events (some raws)).Pairwise
        (fun a b => b.relevanceScore ≤ a.relevanceScore) ∧
      (generateSmartDigestS urlValid env events (some raws)).filter
          (fun y => decide (y.relevanceScore = c)) =
        (raws.map boostS).filter (fun y => decide (y.relevanceScore = c)) := by
  rw [generateSmartDigestS_eq h1 h2 h3]
  exact ⟨sortTopicsDesc_pairwise _, filter_sortTopicsDesc c _⟩

/-- Witness for C2: a run with a tie at score 7 (topics `topicB`, `topicC` in
response order). -/
theorem claim_C2_witness :
    (generateSmartDigestS urlTrue envTok [evGithubW]
        (some [topicA, topicB, topicC])).Pairwise
        (fun a b => b.relevanceScore ≤ a.relevanceScore) ∧
      (generateSmartDigestS urlTrue envTok [evGithubW]
          (some [topicA, topicB, topicC])).filter
          (fun y => decide (y.relevanceScore = 7)) =
        ([topicA, topicB, topicC].map boostS).filter
          (fun y => decide (y.relevanceScore = 7)) :=
  claim_C2_digest_sorted_stable urlTrue envTok [evGithubW]
    [topicA, topicB, topicC] "token" 7 (by decide) rfl (by decide)

/-! ## Claim C3 -/

/-- C3 counterexample: in the events.ts variant of `generateSmartDigest` the
boost is keyed on the substring heuristic, not on the sources list.  Topic
`topicBsky` lists a `bluesky` source, yet its score is returned unchanged
(5, not `min 10 (5 + 1) = 6`) because its summary does not contain the first
20 characters of the Bluesky event title.  This refutes the claimed
"if and only if its sources list contains a bluesky entry". -/
theorem claim_C3_counterexample :
    generateSmartDigestE urlTrue envTok [evBlueskyW] (some [topicBsky]) =
        Except.ok [topicBsky] ∧
      hasBlueskySource topicBsky = true ∧
      topicBsky.relevanceScore = 5 ∧
      topicBsky.relevanceScore ≠ min 10 (topicBsky.relevanceScore + 1) := by
  refine ⟨rfl, by decide, by decide, ?_⟩
  have h5 : topicBsky.relevanceScore = 5 := by decide
  rw [h5, min_eq_right (by norm_num)]
  norm_num

/-- C3 (amended): in the sources-based variant (schema.ts
`generateSmartDigest`), every returned topic arises from a validated response
topic with the same sources, whose score is `min 10 (score + 1)` exactly when
the sources list contains a `bluesky` entry and is unchanged otherwise; the
events.ts variant instead keys the boost on its summary-substring
heuristic. -/
theorem claim_C3_boost_iff_bluesky_source
    (urlValid : String → Bool) (env : String → Option String)
    (events : List Event) (raws : List Topic) (t : Topic)
    (ht : t ∈ generateSmartDigestS urlValid env events (some raws)) :
    ∃ r ∈ raws, t.sources = r.sources ∧
      (hasBlueskySource r = true →
        t.relevanceScore = min 10 (r.relevanceScore + 1)) ∧
      (hasBlueskySource r = false → t.relevanceScore = r.relevanceScore) := by
  rcases generateSmartDigestS_mem ht with ⟨raws', r, heq, hr, rfl, _⟩
  cases heq
  refine ⟨r, hr, boostS_sources r, ?_, ?_⟩ <;>
    intro hb <;> rw [boostS_score, hb] <;> simp

/-- Witness for C3's amended statement. -/
theorem claim_C3_witness :
    ∃ r ∈ [topicA], topicA.sources = r.sources ∧
      (hasBlueskySource r = true →
        topicA.relevanceScore = min 10 (r.relevanceScore + 1)) ∧
      (hasBlueskySource r = false → topicA.relevanceScore = r.relevanceScore) :=
  claim_C3_boost_iff_bluesky_source urlTrue envTok [evGithubW] [topicA] topicA
    (by decide)

/-! ## Lemmas about the window selector -/

theorem sortAscI_head_min :
    ∀ {l : List ℤ}, l ≠ [] →
      ∃ m, (sortAscI l).head? = some m ∧ m ∈ l ∧ ∀ y ∈ l, m ≤ y := by
  intro l
  induction l with
  | nil => intro h; exact absurd rfl h
  | cons x xs ih =>
      intro _
      by_cases hxs : xs = []
      · subst hxs
        exact ⟨x, rfl, by simp, by simp⟩
      · rcases ih hxs with ⟨m, hm, hmem, hmin⟩
        have hrest : ∃ rest, sortAscI xs = m :: rest := by
          cases h : sortAscI xs with
          | nil => rw [h] at hm; exact absurd hm (by simp)
          | cons b bs =>
              rw [h] at hm
              have hbm : b = m := by simpa using hm
              exact ⟨bs, by rw [hbm]⟩
        rcases hrest with ⟨rest, hrest⟩
        have hmhead : m ∈ sortAscI xs := by rw [hrest]; exact List.mem_cons_self m rest
        by_cases hxm : x ≤ m
        · refine ⟨x, ?_, by simp, ?_⟩
          · rw [sortAscI, hrest, insertAscI, if_pos hxm]; rfl
          · intro y hy
            rcases List.mem_cons.mp hy with rfl | hy
            · exact le_refl y
            · exact hxm.trans (hmin y hy)
        · refine ⟨m, ?_, List.mem_cons_of_mem x hmem, ?_⟩
          · rw [sortAscI, hrest, insertAscI, if_neg hxm]; rfl
          · intro y hy
            rcases List.mem_cons.mp hy with rfl | hy
            · exact le_of_lt (lt_of_not_le hxm)
            · exact hmin y hy

theorem sortDescI_head_max :
    ∀ {l : List ℤ}, l ≠ [] →
      ∃ m, (sortDescI l).head? = some m ∧ m ∈ l ∧ ∀ y ∈ l, y ≤ m := by
  intro l
  induction l with
  | nil => intro h; exact absurd rfl h
  | cons x xs ih =>
      intro _
      by_cases hxs : xs = []
      · subst hxs
        exact ⟨x, rfl, by simp, by simp⟩
      · rcases ih hxs with ⟨m, hm, hmem, hmax⟩
        have hrest : ∃ rest, sortDescI xs = m :: rest := by
          cases h : sortDescI xs with
          | nil => rw [h] at hm; exact absurd hm (by simp)
          | cons b bs =>
              rw [h] at hm
              have hbm : b = m := by simpa using hm
              exact ⟨bs, by rw [hbm]⟩
        rcases hrest with ⟨rest, hrest⟩
        by_cases hmx : m ≤ x
        · refine ⟨x, ?_, by simp, ?_⟩
          · rw [sortDescI, hrest, insertDescI, if_pos hmx]; rfl
          · intro y hy
            rcases List.mem_cons.mp hy with rfl | hy
            · exact le_refl y
            · exact (hmax y hy).trans hmx
        · refine ⟨m, ?_, List.mem_cons_of_mem x hmem, ?_⟩
          · rw [sortDescI, hrest, insertDescI, if_neg hmx]; rfl
          · intro y hy
            rcases List.mem_cons.mp hy with rfl | hy
            · exact le_of_lt (lt_of_not_le hmx)
            · exact hmax y hy

theorem dayMarkStart_bounds (now : ℤ) :
    dayMarkStart now ≤ now ∧ now < dayMarkStart now + msPerDay := by
  unfold dayMarkStart msPerDay msPerHour
  rw [Int.fdiv_eq_ediv now (by norm_num)]
  omega

theorem selectorCandidates_eq (now : ℤ) :
    selectorCandidates now =
      [dayMarkStart now + -1 * msPerDay + 6 * msPerHour,
        dayMarkStart now + -1 * msPerDay + 14 * msPerHour,
        dayMarkStart now + -1 * msPerDay + 22 * msPerHour,
        dayMarkStart now + 0 * msPerDay + 6 * msPerHour,
        dayMarkStart now + 0 * msPerDay + 14 * msPerHour,
        dayMarkStart now + 0 * msPerDay + 22 * msPerHour,
        dayMarkStart now + 1 * msPerDay + 6 * msPerHour,
        dayMarkStart now + 1 * msPerDay + 14 * msPerHour,
        dayMarkStart now + 1 * msPerDay + 22 * msPerHour] := rfl

theorem futureMark_spec (now : ℤ) :
    ∃ f, futureMark now = some f ∧ f ∈ selectorCandidates now ∧ now ≤ f ∧
      ∀ c ∈ selectorCandidates now, now ≤ c → f ≤ c := by
  have hb := dayMarkStart_bounds now
  have hle : now ≤ dayMarkStart now + 1 * msPerDay + 22 * msPerHour := by
    unfold msPerDay msPerHour at hb ⊢
    omega
  have hmem : (dayMarkStart now + 1 * msPerDay + 22 * msPerHour) ∈
      (selectorCandidates now).filter (fun d => decide (now ≤ d)) := by
    rw [List.mem_filter]
    exact ⟨by rw [selectorCandidates_eq]; simp, decide_eq_true hle⟩
  rcases sortAscI_head_min (List.ne_nil_of_mem hmem) with ⟨m, hm, hmem', hmin⟩
  refine ⟨m, ?_, (List.mem_filter.mp hmem').1, ?_, ?_⟩
  · unfold futureMark
    exact hm
  · exact of_decide_eq_true (List.mem_filter.mp hmem').2
  · intro c hc hnc
    exact hmin c (List.mem_filter.mpr ⟨hc, decide_eq_true hnc⟩)

theorem pastMark_spec (now : ℤ) :
    ∃ p, pastMark now = some p ∧ p ∈ selectorCandidates now ∧ p < now ∧
      ∀ c ∈ selectorCandidates now, c < now → c ≤ p := by
  have hb := dayMarkStart_bounds now
  have hlt : dayMarkStart now + -1 * msPerDay + 6 * msPerHour < now := by
    unfold msPerDay msPerHour at hb ⊢
    omega
  have hmem : (dayMarkStart now + -1 * msPerDay + 6 * msPerHour) ∈
      (selectorCandidates now).filter (fun d => decide (d < now)) := by
    rw [List.mem_filter]
    exact ⟨by rw [selectorCandidates_eq]; simp, decide_eq_true hlt⟩
  rcases sortDescI_head_max (List.ne_nil_of_mem hmem) with ⟨m, hm, hmem', hmax⟩
  refine ⟨m, ?_, (List.mem_filter.mp hmem').1, ?_, ?_⟩
  · unfold pastMark
    exact hm
  · exact of_decide_eq_true (List.mem_filter.mp hmem').2
  · intro c hc hnc
    exact hmax c (List.mem_filter.mpr ⟨hc, decide_eq_true hnc⟩)

/-! ## Claim C4 -/

/-- C4 counterexample: with marks 06:00/14:00/22:00 and "now" = 05:00 UTC (of
epoch day 1), the 06:00 mark is only one hour away — within the 2-hour snap
threshold — so the code selects the future mark 06:00, not the previous day's
22:00 mark (`22 * 3600000`) the claim demands. -/
theorem claim_C4_counterexample :
    nearestMark (86400000 + 5 * 3600000) = some (86400000 + 6 * 3600000) ∧
      (86400000 + 6 * 3600000 : ℤ) ≠ 22 * 3600000 := by decide

/-- C4 (amended): with "now" = 03:00 UTC, the nearest future mark 06:00 is
three hours away — beyond the 2-hour snap threshold — so the selector chooses
the past mark 22:00 of the previous day, and the window start is that mark
minus the 8-hour lookback. -/
theorem claim_C4_past_mark_beyond_snap :
    nearestMark (86400000 + 3 * 3600000) = some (22 * 3600000) ∧
      digestStartTime (86400000 + 3 * 3600000) =
        some (22 * 3600000 - 8 * 3600000) := by decide

/-! ## Claim C5 -/

/-- C5: for every instant, the selector resolves both the nearest future and
the nearest past candidate mark, picks the future one exactly when it is at
most the 2-hour snap threshold away and the past one otherwise, and the
window start is the selected mark minus the 8-hour lookback; in particular at
05:15 UTC it snaps to the future 06:00 mark. -/
theorem claim_C5_snap_threshold_selector :
    (∀ now : ℤ, ∃ f p, futureMark now = some f ∧ pastMark now = some p ∧
      now ≤ f ∧ (∀ c ∈ selectorCandidates now, now ≤ c → f ≤ c) ∧
      p < now ∧ (∀ c ∈ selectorCandidates now, c < now → c ≤ p) ∧
      nearestMark now = some (if f - now ≤ digestSnapWindow then f else p) ∧
      digestStartTime now =
        some ((if f - now ≤ digestSnapWindow then f else p) -
          digestWindowSize)) ∧
    nearestMark (86400000 + 5 * 3600000 + 15 * 60000) =
        some (86400000 + 6 * 3600000) ∧
      digestStartTime (86400000 + 5 * 3600000 + 15 * 60000) =
        some (86400000 + 6 * 3600000 - 8 * 3600000) := by
  refine ⟨?_, by decide, by decide⟩
  intro now
  rcases futureMark_spec now with ⟨f, hf, _, hnf, hfmin⟩
  rcases pastMark_spec now with ⟨p, hp, _, hpn, hpmax⟩
  refine ⟨f, p, hf, hp, hnf, hfmin, hpn, hpmax, ?_, ?_⟩
  · unfold nearestMark
    rw [hf, hp]
  · unfold digestStartTime nearestMark
    rw [hf, hp]
    rfl

/-! ## Lemmas about the Bluesky fetchers -/

theorem foldl_processFeedItem_bounds (start endT : ℤ) :
    ∀ (feed : List BskyItem) (st : List Event × Bool),
      (∀ e ∈ st.1, start ≤ e.timestamp ∧ e.timestamp ≤ endT) →
      ∀ e ∈ (feed.foldl (processFeedItem start endT) st).1,
        start ≤ e.timestamp ∧ e.timestamp ≤ endT := by
  intro feed
  induction feed with
  | nil => intro st h e he; exact h e he
  | cons i is ih =>
      intro st h
      rw [List.foldl_cons]
      apply ih
      unfold processFeedItem
      by_cases h1 : bskyTimestamp i < start
      · rw [if_pos h1]; exact h
      · rw [if_neg h1]
        by_cases h2 : bskyTimestamp i ≤ endT
        · rw [if_pos h2]
          intro e he
          rcases List.mem_append.mp he with he | he
          · exact h e he
          · rcases List.mem_singleton.mp he with rfl
            exact ⟨le_of_not_lt h1, h2⟩
        · rw [if_neg h2]; exact h

theorem processFeed_bounds (start endT : ℤ) (feed : List BskyItem) :
    ∀ e ∈ (processFeed start endT feed).1,
      start ≤ e.timestamp ∧ e.timestamp ≤ endT :=
  foldl_processFeedItem_bounds start endT feed ([], false) (by simp)

theorem fetchBlueskyBackfill_bounds (start endT : ℤ) :
    ∀ (pages : List (List BskyItem)) (e : Event),
      e ∈ fetchBlueskyBackfill start endT pages →
      start ≤ e.timestamp ∧ e.timestamp ≤ endT := by
  intro pages
  induction pages with
  | nil => intro e he; exact absurd he (by simp [fetchBlueskyBackfill])
  | cons feed rest ih =>
      intro e he
      rw [fetchBlueskyBackfill] at he
      by_cases h1 : feed.isEmpty = true
      · rw [if_pos h1] at he; exact absurd he (by simp)
      · rw [if_neg h1] at he
        by_cases h2 : (processFeed start endT feed).2 = true
        · rw [if_pos h2] at he
          exact processFeed_bounds start endT feed e he
        · rw [if_neg h2] at he
          by_cases h3 : rest.isEmpty = true
          · rw [if_pos h3] at he
            exact processFeed_bounds start endT feed e he
          · rw [if_neg h3] at he
            rcases List.mem_append.mp he with he | he
            · exact processFeed_bounds start endT feed e he
            · exact ih e he

theorem foldl_processFeedItem_flag_mono (start endT : ℤ) :
    ∀ (feed : List BskyItem) (st : List Event × Bool), st.2 = true →
      (feed.foldl (processFeedItem start endT) st).2 = true := by
  intro feed
  induction feed with
  | nil => intro st h; exact h
  | cons i is ih =>
      intro st h
      rw [List.foldl_cons]
      apply ih
      unfold processFeedItem
      by_cases h1 : bskyTimestamp i < start
      · rw [if_pos h1]
      · rw [if_neg h1]
        by_cases h2 : bskyTimestamp i ≤ endT
        · rw [if_pos h2]; exact h
        · rw [if_neg h2]; exact h

theorem processFeed_reached (start endT : ℤ) :
    ∀ (feed : List BskyItem) (st : List Event × Bool),
      (∃ i ∈ feed, bskyTimestamp i < start) →
      (feed.foldl (processFeedItem start endT) st).2 = true := by
  intro feed
  induction feed with
  | nil => intro st h; rcases h with ⟨i, hi, _⟩; exact absurd hi (by simp)
  | cons i is ih =>
      intro st h
      rw [List.foldl_cons]
      rcases h with ⟨j, hj, hlt⟩
      rcases List.mem_cons.mp hj with rfl | hj
      · apply foldl_processFeedItem_flag_mono
        unfold processFeedItem
        rw [if_pos hlt]
      · exact ih _ ⟨j, hj, hlt⟩

theorem fetchBlueskyBackfill_stop (start endT : ℤ) (feed : List BskyItem)
    (hfeed : ∃ i ∈ feed, bskyTimestamp i < start) :
    ∀ (pre rest : List (List BskyItem)),
      fetchBlueskyBackfill start endT (pre ++ feed :: rest) =
        fetchBlueskyBackfill start endT (pre ++ [feed]) := by
  intro pre
  induction pre with
  | nil =>
      intro rest
      simp only [List.nil_append]
      rw [fetchBlueskyBackfill, fetchBlueskyBackfill]
      by_cases h1 : feed.isEmpty = true
      · rw [if_pos h1, if_pos h1]
      · rw [if_neg h1, if_neg h1]
        have h2 : (processFeed start endT feed).2 = true :=
          processFeed_reached start endT feed ([], false) hfeed
        rw [if_pos h2, if_pos h2]
  | cons p pre ih =>
      intro rest
      simp only [List.cons_append]
      rw [fetchBlueskyBackfill, fetchBlueskyBackfill]
      by_cases h1 : p.isEmpty = true
      · rw [if_pos h1, if_pos h1]
      · rw [if_neg h1, if_neg h1]
        by_cases h2 : (processFeed start endT p).2 = true
        · rw [if_pos h2, if_pos h2]
        · rw [if_neg h2, if_neg h2]
          have hne1 : ¬ (pre ++ feed :: rest).isEmpty = true := by
            simp
          have hne2 : ¬ (pre ++ [feed]).isEmpty = true := by
            simp
          rw [if_neg hne1, if_neg hne2, ih rest]

theorem fetchBlueskyEventsS_lower (since : ℤ) :
    ∀ (feed : List BskyItem) (acc : List Event),
      (∀ e ∈ acc, since ≤ e.timestamp) →
      ∀ e ∈ feed.foldl (fun acc item =>
          if since ≤ bskyTimestamp item then
            acc ++ [bskyEventOf item (bskyTimestamp item)]
          else acc) acc,
        since ≤ e.timestamp := by
  intro feed
  induction feed with
  | nil => intro acc h e he; exact h e he
  | cons i is ih =>
      intro acc h
      rw [List.foldl_cons]
      apply ih
      by_cases h1 : since ≤ bskyTimestamp i
      · rw [if_pos h1]
        intro e he
        rcases List.mem_append.mp he with he | he
        · exact h e he
        · rcases List.mem_singleton.mp he with rfl
          exact h1
      · rw [if_neg h1]; exact h

/-! ## Claim C6 -/

/-- C6 counterexample: the schema.ts GitHub fetcher performs no client-side
timestamp check.  For the window `[100, 200]` it returns the mapped item
verbatim, with timestamp `closed_at || created_at = 0`, which precedes the
window start. -/
theorem claim_C6_counterexample :
    fetchGitHubEventsS envTok 100 200 (some [ghEarly]) =
        Except.ok [⟨.github, "Closed Issue #7: t", "No description provided",
          some "https://github.com/i/7", 0⟩] ∧
      (⟨.github, "Closed Issue #7: t", "No description provided",
          some "https://github.com/i/7", 0⟩ : Event).timestamp < 100 :=
  ⟨rfl, by decide⟩

/-- C6 (amended): only the backfill Bluesky fetcher slices events to the
query window: every event it returns has its timestamp within
`[start, end]`.  The schema.ts Bluesky fetcher enforces only the lower bound
`since`, and the GitHub fetchers rely entirely on the server-side query
(with a `created_at` fallback that may precede the window). -/
theorem claim_C6_backfill_window_containment (start endT since : ℤ)
    (pages : List (List BskyItem)) (resp : Option (List BskyItem)) :
    (∀ e ∈ fetchBlueskyBackfill start endT pages,
        start ≤ e.timestamp ∧ e.timestamp ≤ endT) ∧
      ∀ e ∈ fetchBlueskyEventsS since resp, since ≤ e.timestamp := by
  constructor
  · intro e he
    exact fetchBlueskyBackfill_bounds start endT pages e he
  · intro e he
    cases resp with
    | none => exact absurd he (by simp [fetchBlueskyEventsS])
    | some feed =>
        exact fetchBlueskyEventsS_lower since feed [] (by simp) e he

/-- Witness for C6's amended statement at a concrete page and feed. -/
theorem claim_C6_witness :
    (100 ≤ (bskyEventOf bskyItemIn 150).timestamp ∧
        (bskyEventOf bskyItemIn 150).timestamp ≤ 200) ∧
      100 ≤ (bskyEventOf bskyItemIn 150).timestamp :=
  ⟨(claim_C6_backfill_window_containment 100 200 100 [[bskyItemIn]]
        (some [bskyItemIn])).1 (bskyEventOf bskyItemIn 150)
      (by rw [(rfl : fetchBlueskyBackfill 100 200 [[bskyItemIn]] =
          [bskyEventOf bskyItemIn 150])]
          exact List.mem_singleton_self _),
    (claim_C6_backfill_window_containment 100 200 100 [[bskyItemIn]]
        (some [bskyItemIn])).2 (bskyEventOf bskyItemIn 150)
      (by rw [(rfl : fetchBlueskyEventsS 100 (some [bskyItemIn]) =
          [bskyEventOf bskyItemIn 150])]
          exact List.mem_singleton_self _)⟩

/-! ## Claim C10 -/

/-- C10: if a feed page contains an item whose timestamp precedes the window
start, the backfill fetcher stops paginating after that page (pages beyond it
contribute nothing), and no event before the window start — in particular
neither that item nor any earlier one — appears in the result. -/
theorem claim_C10_pagination_stops (start endT : ℤ)
    (pre rest : List (List BskyItem)) (feed : List BskyItem)
    (hfeed : ∃ i ∈ feed, bskyTimestamp i < start) :
    fetchBlueskyBackfill start endT (pre ++ feed :: rest) =
        fetchBlueskyBackfill start endT (pre ++ [feed]) ∧
      ∀ e ∈ fetchBlueskyBackfill start endT (pre ++ feed :: rest),
        start ≤ e.timestamp := by
  refine ⟨fetchBlueskyBackfill_stop start endT feed hfeed pre rest, ?_⟩
  intro e he
  exact (fetchBlueskyBackfill_bounds start endT _ e he).1

/-- Witness for C10: a page containing an item at 50 (before start 100)
followed by a further page. -/
theorem claim_C10_witness :
    fetchBlueskyBackfill 100 200 ([] ++ [bskyItemIn, bskyItemEarly] :: [[bskyItemIn]]) =
        fetchBlueskyBackfill 100 200 ([] ++ [[bskyItemIn, bskyItemEarly]]) ∧
      ∀ e ∈ fetchBlueskyBackfill 100 200
          ([] ++ [bskyItemIn, bskyItemEarly] :: [[bskyItemIn]]),
        100 ≤ e.timestamp :=
  claim_C10_pagination_stops 100 200 [] [[bskyItemIn]] [bskyItemIn, bskyItemEarly]
    (by decide)

/-! ## Claim C7 -/

/-- C7 counterexample: a post assembled with the pipeline's own
`getPostType` at the 14:00 UTC mark has type `"midday"`, which the
`PostSchema` enum `["daily", "nightly"]` rejects even though the post has no
topic out of range and no malformed URL (its topic list is empty), refuting
the claimed "succeeds iff every score is in range and every URL is
well-formed". -/
theorem claim_C7_counterexample :
    getPostType 14 = "midday" ∧
      validatePost urlTrue dateTrue middayPost = false ∧
      middayPost.topics = [] := by decide

/-- C7 (amended): validating an assembled post against `PostSchema` succeeds
iff the date coerces, the type is one of `"daily"`/`"nightly"`, every topic's
relevance score lies in `[0, 10]`, and every source URL is well-formed;
otherwise it fails with a schema violation. -/
theorem claim_C7_post_validation_iff (urlValid dateValid : String → Bool)
    (p : RawPost) :
    validatePost urlValid dateValid p = true ↔
      dateValid p.date = true ∧ (p.type = "daily" ∨ p.type = "nightly") ∧
        ∀ t ∈ p.topics, 0 ≤ t.relevanceScore ∧ t.relevanceScore ≤ 10 ∧
          ∀ s ∈ t.sources, urlValid s.url = true := by
  unfold validatePost validateTopic
  simp only [Bool.and_eq_true, Bool.or_eq_true, beq_iff_eq, List.all_eq_true,
    decide_eq_true_eq]
  constructor
  · rintro ⟨⟨hd, hty⟩, htop⟩
    exact ⟨hd, hty, fun t ht =>
      ⟨(htop t ht).1.1, (htop t ht).1.2, (htop t ht).2⟩⟩
  · rintro ⟨hd, hty, htop⟩
    exact ⟨⟨hd, hty⟩, fun t ht =>
      ⟨⟨(htop t ht).1, (htop t ht).2.1⟩, (htop t ht).2.2⟩⟩

/-! ## Claim C8 -/

/-- C8 counterexample: the schema.ts clustering step does not require its
credential — with `MODELS_TOKEN` absent the error thrown inside
`requestInference` is caught and the call degrades to an empty topic list,
while the same inputs with the credential present produce a topic. -/
theorem claim_C8_counterexample :
    generateSmartDigestS urlTrue envMissing [evGithubW] (some [topicA]) = [] ∧
      generateSmartDigestS urlTrue envTok [evGithubW] (some [topicA]) =
        [topicA] := by decide

/-- C8 (amended): with a missing credential the GitHub fetcher fails fast —
it errors before consuming any network response — and the events.ts
clustering and title steps likewise propagate the error; but the schema.ts
clustering step catches it and degrades to an empty topic list, and the
schema.ts title step falls back to the topic's own title. -/
theorem claim_C8_missing_credentials (env : String → Option String) :
    (env "GITHUB_TOKEN" = none →
      (∀ since nowEnd resp, ∃ msg,
          fetchGitHubEventsS env since nowEnd resp = Except.error msg) ∧
        (∀ urlValid events resp, ∃ msg,
          generateSmartDigestE urlValid env events resp = Except.error msg) ∧
        ∀ topic resp, ∃ msg,
          generateCatchyTitleE env topic resp = Except.error msg) ∧
      (env "MODELS_TOKEN" = none →
        (∀ urlValid events resp,
          generateSmartDigestS urlValid env events resp = []) ∧
        ∀ topic resp,
          generateCatchyTitleS env topic resp = sanitizeBrand topic.title) := by
  constructor
  · intro h
    refine ⟨?_, ?_, ?_⟩
    · intro since nowEnd resp
      refine ⟨"Environment variable GITHUB_TOKEN is missing.", ?_⟩
      simp [fetchGitHubEventsS, getRequiredEnv, h]
    · intro urlValid events resp
      refine ⟨"Environment variable GITHUB_TOKEN is missing.", ?_⟩
      simp [generateSmartDigestE, getRequiredEnv, h]
    · intro topic resp
      refine ⟨"Environment variable GITHUB_TOKEN is missing.", ?_⟩
      simp [generateCatchyTitleE, getRequiredEnv, h]
  · intro h
    constructor
    · intro urlValid events resp
      by_cases he : events.isEmpty = true
      · simp [generateSmartDigestS, he]
      · simp [generateSmartDigestS, he, getRequiredEnv, h]
    · intro topic resp
      simp [generateCatchyTitleS, getRequiredEnv, h]

/-- Witness for C8's amended statement at the empty environment. -/
theorem claim_C8_witness :
    (∃ msg, fetchGitHubEventsS envMissing 0 0 none = Except.error msg) ∧
      (∃ msg, generateSmartDigestE urlTrue envMissing [evGithubW]
          (some [topicA]) = Except.error msg) ∧
      (∃ msg, generateCatchyTitleE envMissing topicA none = Except.error msg) ∧
      generateSmartDigestS urlTrue envMissing [evGithubW] (some [topicA]) = [] ∧
      generateCatchyTitleS envMissing topicA none =
        sanitizeBrand topicA.title :=
  ⟨(claim_C8_missing_credentials envMissing).1 rfl |>.1 0 0 none,
    (claim_C8_missing_credentials envMissing).1 rfl |>.2.1 urlTrue [evGithubW]
      (some [topicA]),
    (claim_C8_missing_credentials envMissing).1 rfl |>.2.2 topicA none,
    (claim_C8_missing_credentials envMissing).2 rfl |>.1 urlTrue [evGithubW]
      (some [topicA]),
    (claim_C8_missing_credentials envMissing).2 rfl |>.2 topicA none⟩

/-! ## Claim C9 -/

theorem totalWeight_cons (t : Topic) (ts : List Topic) :
    totalWeight (t :: ts) = t.relevanceScore + totalWeight ts := by
  have h : ∀ (l : List Topic) (a : ℚ),
      l.foldl (fun sum x => sum + x.relevanceScore) a =
        a + l.foldl (fun sum x => sum + x.relevanceScore) 0 := by
    intro l
    induction l with
    | nil => intro a; simp
    | cons x xs ih =>
        intro a
        simp only [List.foldl_cons]
        rw [ih (a + x.relevanceScore), ih (0 + x.relevanceScore)]
        ring
  unfold totalWeight
  simp only [List.foldl_cons]
  rw [h ts (0 + t.relevanceScore)]
  ring

theorem pickLoop_pos :
    ∀ (topics : List Topic) (r : ℚ), 0 ≤ r → r < totalWeight topics →
      ∃ t, pickLoop r topics = some t ∧ 0 < t.relevanceScore ∧ t ∈ topics := by
  intro topics
  induction topics with
  | nil =>
      intro r h0 hlt
      unfold totalWeight at hlt
      simp at hlt
      linarith
  | cons x xs ih =>
      intro r h0 hlt
      rw [totalWeight_cons] at hlt
      by_cases hx : r < x.relevanceScore
      · exact ⟨x, by rw [pickLoop, if_pos hx], lt_of_le_of_lt h0 hx, by simp⟩
      · have hx' : x.relevanceScore ≤ r := le_of_not_lt hx
        have h0' : 0 ≤ r - x.relevanceScore := by linarith
        have hlt' : r - x.relevanceScore < totalWeight xs := by linarith
        rcases ih (r - x.relevanceScore) h0' hlt' with ⟨t, hp, hpos, hmem⟩
        exact ⟨t, by rw [pickLoop, if_neg hx]; exact hp, hpos,
          List.mem_cons_of_mem x hmem⟩

theorem pickLoop_zero :
    ∀ (topics : List Topic), (∀ t ∈ topics, t.relevanceScore = 0) →
      pickLoop 0 topics = none := by
  intro topics
  induction topics with
  | nil => intro _; rfl
  | cons x xs ih =>
      intro h
      have hx : x.relevanceScore = 0 := h x (by simp)
      rw [pickLoop, if_neg (by rw [hx]; exact lt_irrefl 0), hx, sub_zero]
      exact ih fun t ht => h t (List.mem_cons_of_mem x ht)

/-- C9: for a non-empty topic list with non-negative scores, the weighted
draw `pickWeightedTopic` (with `r = Math.random() * totalWeight`, so
`0 ≤ r < totalWeight` whenever the total is positive) returns a topic with
strictly positive score — never one contributing zero cumulative share — and
when all scores are zero it returns the first topic. -/
theorem claim_C9_weighted_pick_positive (topics : List Topic) (r : ℚ)
    (hne : topics ≠ [])
    (hnn : ∀ t ∈ topics, 0 ≤ t.relevanceScore) :
    (0 ≤ r → r < totalWeight topics →
        ∃ t, pickWeightedTopic r topics = some t ∧ 0 < t.relevanceScore) ∧
      ((∀ t ∈ topics, t.relevanceScore = 0) →
        ∃ t0, topics.head? = some t0 ∧ pickWeightedTopic 0 topics = some t0) := by
  constructor
  · intro h0 hlt
    rcases pickLoop_pos topics r h0 hlt with ⟨t, hp, hpos, _⟩
    refine ⟨t, ?_, hpos⟩
    unfold pickWeightedTopic
    rw [hp]
  · intro hz
    cases topics with
    | nil => exact absurd rfl hne
    | cons x xs =>
        refine ⟨x, rfl, ?_⟩
        unfold pickWeightedTopic
        rw [pickLoop_zero _ hz]
        rfl

/-- Witness for C9: a positive-score draw and an all-zero list. -/
theorem claim_C9_witness :
    (∃ t, pickWeightedTopic 0 [topicB] = some t ∧ 0 < t.relevanceScore) ∧
      ∃ t0, ([topicZ] : List Topic).head? = some t0 ∧
        pickWeightedTopic 0 [topicZ] = some t0 :=
  ⟨(claim_C9_weighted_pick_positive [topicB] 0 (by decide) (by decide)).1
      (le_refl 0) (by simp [totalWeight, topicB]),
    (claim_C9_weighted_pick_positive [topicZ] 0 (by decide) (by decide)).2
      (by decide)⟩

end NpmxDigest
